import Mathlib

/-!
Verification of the snappy `partition` package (dual-rootfs upgrade
coordinator): bootloader variable files, the U-Boot and GRUB bootloader
variants, the mount registries with their signal-driven teardown, and the
`toggleBootloaderRootfs` upgrade cycle.

Go strings are modelled as lists of characters (`GoStr`); external
side-effecting calls (running `mount`, `grub-editenv`, reading files) are
modelled by explicit success oracles passed as arguments, and a Go runtime
panic is modelled as `none`.
-/

/-- Go strings are modelled as lists of characters. -/
abbrev GoStr := List Char

/-- Convert a Lean string literal to the `GoStr` representation. -/
def lit (s : String) : GoStr := s.toList

/-- `bootloaderRootfsVar = "snappy_ab"` (src/partition/bootloader.go). -/
def bootloaderRootfsVar : GoStr := lit (r"snappy_ab")

/-- `bootloaderBootmodeVar = "snappy_mode"` (src/partition/bootloader.go). -/
def bootloaderBootmodeVar : GoStr := lit (r"snappy_mode")

/-- `bootloaderBootmodeTry = "try"` (src/partition/bootloader.go). -/
def bootloaderBootmodeTry : GoStr := lit (r"try")

/-- `bootloaderBootmodeSuccess = "default"` (src/partition/bootloader.go). -/
def bootloaderBootmodeSuccess : GoStr := lit (r"default")

/-- The 1-character rootfs tag: the final character of a partition label,
as computed by `newBootloader` (`label[len(label)-1]`). -/
def rootfsTag (label : GoStr) : Char := label.getLastD ' '

/-- `configFileChange` (src/partition/bootloader.go): a name/value pair to
be applied to a `name=value` file. -/
structure configFileChange where
  Name : GoStr
  Value : GoStr
deriving DecidableEq

/-- The test `strings.HasPrefix(line, fmt.Sprintf("%s=", change.Name))`
from `modifyNameValueFile`. -/
def chMatches (c : configFileChange) (line : GoStr) : Bool :=
  (c.Name ++ ['=']).isPrefixOf line

/-- The inner loop of `modifyNameValueFile`: run every change over one
line, replacing the line on a prefix match and recording the change in the
`updated` accumulator. -/
def applyChangesToLine (changes : List configFileChange)
    (p : GoStr × List configFileChange) : GoStr × List configFileChange :=
  changes.foldl
    (fun q c =>
      if chMatches c q.1 then (c.Name ++ '=' :: c.Value, q.2 ++ [c]) else q)
    p

/-- The outer loop body of `modifyNameValueFile`: process one line and
append the result to the rewritten file. -/
def fileStep (changes : List configFileChange)
    (acc : List GoStr × List configFileChange) (line : GoStr) :
    List GoStr × List configFileChange :=
  let q := applyChangesToLine changes (line, acc.2)
  (acc.1 ++ [q.1], q.2)

/-- `modifyNameValueFile` (src/partition/bootloader.go), at the level of
file lines: replace every line matched by a change, then append each change
whose name never matched any line. -/
def modifyLines (lines : List GoStr) (changes : List configFileChange) :
    List GoStr :=
  let r := lines.foldl (fileStep changes) ([], [])
  r.1 ++
    (changes.filter
      (fun c => !(r.2.any (fun u => u.Name == c.Name)))).map
      (fun c => c.Name ++ '=' :: c.Value)

/-- The first change whose `name=` is a prefix of the line. -/
def matchingChange (changes : List configFileChange) (line : GoStr) :
    Option configFileChange :=
  changes.find? (fun c => chMatches c line)

/-- What `modifyNameValueFile` does to one existing line: replace it by
`name=value` for the matching change, or leave it alone. -/
def replaceLine (changes : List configFileChange) (line : GoStr) : GoStr :=
  match matchingChange changes line with
  | some c => c.Name ++ '=' :: c.Value
  | none => line

/-- `List.isPrefixOf` agrees with the existence of a suffix. -/
theorem isPrefixOf_iff_exists {l1 l2 : GoStr} :
    l1.isPrefixOf l2 = true ↔ ∃ t, l2 = l1 ++ t := by
  induction l1 generalizing l2 with
  | nil =>
    simp [List.isPrefixOf]
  | cons a as ih =>
    cases l2 with
    | nil => simp [List.isPrefixOf]
    | cons b bs =>
      show (a == b && as.isPrefixOf bs) = true ↔ _
      constructor
      · intro h
        rw [Bool.and_eq_true, beq_iff_eq] at h
        obtain ⟨t, ht⟩ := ih.mp h.2
        exact ⟨t, by simp [h.1, ht]⟩
      · rintro ⟨t, ht⟩
        injection ht with hab hbs
        rw [Bool.and_eq_true, beq_iff_eq]
        exact ⟨hab.symm, ih.mpr ⟨t, hbs⟩⟩

/-- Two `name=rest` strings with `=`-free names agree on the name part. -/
theorem cons_eq_names {a b v w : GoStr} (ha : '=' ∉ a) (hb : '=' ∉ b)
    (h : a ++ '=' :: v = b ++ '=' :: w) : a = b ∧ v = w := by
  induction a generalizing b with
  | nil =>
    cases b with
    | nil => simpa using h
    | cons y b' =>
      simp at h
      exact absurd (h.1 ▸ List.mem_cons_self y b') hb
  | cons x a' ih =>
    cases b with
    | nil =>
      simp at h
      exact absurd (h.1 ▸ List.mem_cons_self x a') ha
    | cons y b' =>
      simp at h
      obtain ⟨hxy, hrest⟩ := h
      have ha' : '=' ∉ a' := fun hm => ha (List.mem_cons_of_mem x hm)
      have hb' : '=' ∉ b' := fun hm => hb (List.mem_cons_of_mem y hm)
      obtain ⟨h1, h2⟩ := ih ha' hb' hrest
      exact ⟨by simp [hxy, h1], h2⟩

/-- A change with an `=`-free name matches exactly the lines of the form
`name=rest`. -/
theorem chMatches_iff {c : configFileChange} {l : GoStr} :
    chMatches c l = true ↔ ∃ t, l = c.Name ++ '=' :: t := by
  unfold chMatches
  rw [isPrefixOf_iff_exists]
  constructor
  · rintro ⟨t, ht⟩
    exact ⟨t, by simpa [List.append_assoc] using ht⟩
  · rintro ⟨t, ht⟩
    exact ⟨t, by simpa [List.append_assoc] using ht⟩

/-- If two changes with `=`-free names both match a line, their names are
equal. -/
theorem names_eq_of_matches {c d : configFileChange} {l : GoStr}
    (hc : '=' ∉ c.Name) (hd : '=' ∉ d.Name)
    (h1 : chMatches c l = true) (h2 : chMatches d l = true) :
    c.Name = d.Name := by
  obtain ⟨t, ht⟩ := chMatches_iff.mp h1
  obtain ⟨s, hs⟩ := chMatches_iff.mp h2
  exact (cons_eq_names hc hd (ht ▸ hs)).1

/-- In a change list with pairwise-distinct names, equal names force equal
changes. -/
theorem pairwise_names_inj {changes : List configFileChange}
    (h : changes.Pairwise (fun a b => a.Name ≠ b.Name)) :
    ∀ u ∈ changes, ∀ c ∈ changes, u.Name = c.Name → u = c := by
  induction changes with
  | nil => intro u hu; simp at hu
  | cons c0 cs ih =>
    rw [List.pairwise_cons] at h
    intro u hu c hc he
    rcases List.mem_cons.mp hu with hu0 | hu1 <;>
      rcases List.mem_cons.mp hc with hc0 | hc1
    · rw [hu0, hc0]
    · exact absurd (hu0 ▸ he) (h.1 c hc1)
    · exact absurd (hc0 ▸ he.symm) (h.1 u hu1)
    · exact ih h.2 u hu1 c hc1 he

/-- Folding the inner loop over changes none of which match leaves the line
and the `updated` accumulator alone. -/
theorem foldl_no_match {cs : List configFileChange} {line : GoStr}
    {u : List configFileChange} (h : ∀ d ∈ cs, chMatches d line = false) :
    applyChangesToLine cs (line, u) = (line, u) := by
  induction cs with
  | nil => rfl
  | cons d ds ih =>
    unfold applyChangesToLine at *
    rw [List.foldl_cons]
    rw [h d (List.mem_cons_self d ds)]
    simp only [Bool.false_eq_true, if_false]
    exact ih (fun e he => h e (List.mem_cons_of_mem d he))

/-- With `=`-free, pairwise-distinct change names, the inner loop of
`modifyNameValueFile` replaces the line by the first matching change (and
records it), or leaves the line alone. -/
theorem applyChangesToLine_eq {changes : List configFileChange}
    (h1 : ∀ c ∈ changes, '=' ∉ c.Name)
    (h2 : changes.Pairwise (fun a b => a.Name ≠ b.Name))
    (l : GoStr) (u : List configFileChange) :
    applyChangesToLine changes (l, u) =
      match matchingChange changes l with
      | some c => (c.Name ++ '=' :: c.Value, u ++ [c])
      | none => (l, u) := by
  induction changes generalizing u with
  | nil => rfl
  | cons c cs ih =>
    rw [List.pairwise_cons] at h2
    rcases hp : chMatches c l with _ | _
    · have step : applyChangesToLine (c :: cs) (l, u) =
          applyChangesToLine cs (l, u) := by
        unfold applyChangesToLine
        rw [List.foldl_cons, hp]
        simp only [Bool.false_eq_true, if_false]
      rw [step]
      have hmc : matchingChange (c :: cs) l = matchingChange cs l := by
        unfold matchingChange
        exact List.find?_cons_of_neg cs (by simp [hp])
      rw [hmc]
      exact ih (fun d hd => h1 d (List.mem_cons_of_mem c hd)) h2.2 u
    · have step : applyChangesToLine (c :: cs) (l, u) =
          applyChangesToLine cs (c.Name ++ '=' :: c.Value, u ++ [c]) := by
        unfold applyChangesToLine
        rw [List.foldl_cons, hp]
        simp only [if_true]
      have hnom : ∀ d ∈ cs, chMatches d (c.Name ++ '=' :: c.Value) = false := by
        intro d hd
        rcases hq : chMatches d (c.Name ++ '=' :: c.Value) with _ | _
        · rfl
        · obtain ⟨t, ht⟩ := chMatches_iff.mp hq
          have hdn : '=' ∉ d.Name := h1 d (List.mem_cons_of_mem c hd)
          have hcn : '=' ∉ c.Name := h1 c (List.mem_cons_self c cs)
          have := (cons_eq_names hcn hdn ht).1
          exact absurd this (h2.1 d hd)
      rw [step, foldl_no_match hnom]
      have hmc : matchingChange (c :: cs) l = some c := by
        unfold matchingChange
        exact List.find?_cons_of_pos cs hp
      rw [hmc]

/-- The outer loop of `modifyNameValueFile` maps `replaceLine` over the
lines and collects the matching changes in order. -/
theorem foldl_fileStep {changes : List configFileChange}
    (h1 : ∀ c ∈ changes, '=' ∉ c.Name)
    (h2 : changes.Pairwise (fun a b => a.Name ≠ b.Name)) :
    ∀ (lines : List GoStr) (acc : List GoStr × List configFileChange),
      lines.foldl (fileStep changes) acc =
        (acc.1 ++ lines.map (replaceLine changes),
         acc.2 ++ lines.filterMap (matchingChange changes)) := by
  intro lines
  induction lines with
  | nil => intro acc; simp
  | cons l ls ih =>
    intro acc
    rw [List.foldl_cons]
    have happ := applyChangesToLine_eq h1 h2 l acc.2
    rcases hm : matchingChange changes l with _ | c
    · rw [hm] at happ
      have hrl : replaceLine changes l = l := by
        unfold replaceLine
        rw [hm]
      have hstep : fileStep changes acc l = (acc.1 ++ [l], acc.2) := by
        simp [fileStep, happ]
      rw [hstep, ih]
      simp [hrl, List.filterMap_cons, hm, List.append_assoc]
    · rw [hm] at happ
      have hrl : replaceLine changes l = c.Name ++ '=' :: c.Value := by
        unfold replaceLine
        rw [hm]
      have hstep : fileStep changes acc l =
          (acc.1 ++ [c.Name ++ '=' :: c.Value], acc.2 ++ [c]) := by
        simp [fileStep, happ]
      rw [hstep, ih]
      simp [hrl, List.filterMap_cons, hm, List.append_assoc]

/-- Main characterization of `modifyNameValueFile` for well-formed change
lists: matched lines are rewritten in place, unmatched lines kept, and the
changes that matched nothing are appended at the end as `name=value`. -/
theorem modifyLines_eq {lines : List GoStr} {changes : List configFileChange}
    (h1 : ∀ c ∈ changes, '=' ∉ c.Name)
    (h2 : changes.Pairwise (fun a b => a.Name ≠ b.Name)) :
    modifyLines lines changes =
      lines.map (replaceLine changes) ++
        (changes.filter
          (fun c => !(lines.any (fun l => chMatches c l)))).map
          (fun c => c.Name ++ '=' :: c.Value) := by
  unfold modifyLines
  rw [foldl_fileStep h1 h2 lines ([], [])]
  simp only [List.nil_append]
  congr 1
  congr 1
  apply List.filter_congr
  intro c hc
  have key : ((lines.filterMap (matchingChange changes)).any
        (fun u => u.Name == c.Name)) =
      (lines.any (fun l => chMatches c l)) := by
    rcases ha : lines.any (fun l => chMatches c l) with _ | _
    · rw [List.any_eq_false] at ha
      rw [List.any_eq_false]
      intro u hu hname
      obtain ⟨l, hl, hfind⟩ := List.mem_filterMap.mp hu
      have h' : changes.find? (fun d => chMatches d l) = some u := hfind
      have hpu0 := List.find?_some h'
      have hpu : chMatches u l = true := hpu0
      have hueq : u.Name = c.Name := by simpa using hname
      have humem : u ∈ changes := List.mem_of_find?_eq_some h'
      have huc : u = c := pairwise_names_inj h2 u humem c hc hueq
      exact ha l hl (huc ▸ hpu)
    · rw [List.any_eq_true] at ha
      obtain ⟨l, hl, hp⟩ := ha
      rcases hf : matchingChange changes l with _ | u
      · unfold matchingChange at hf
        rw [List.find?_eq_none] at hf
        exact absurd hp (hf c hc)
      · have h' : changes.find? (fun d => chMatches d l) = some u := hf
        have hpu0 := List.find?_some h'
        have hpu : chMatches u l = true := hpu0
        have humem : u ∈ changes := List.mem_of_find?_eq_some h'
        have hn : u.Name = c.Name :=
          names_eq_of_matches (h1 u humem) (h1 c hc) hpu hp
        rw [List.any_eq_true]
        exact ⟨u, List.mem_filterMap.mpr ⟨l, hl, hf⟩, by simp [hn]⟩
  rw [key]

/-- Modelled from the spec: the external `goconfigparser` library (not part
of this repository) parses the variable store as headerless `key=value`
lines (spec section 4.5.2 and section 6); a line is split at its first `=`,
lines without `=` carry no binding. -/
def parseKV : GoStr → Option (GoStr × GoStr)
  | [] => none
  | ch :: rest =>
    if ch = '=' then some ([], rest)
    else
      match parseKV rest with
      | some (k, v) => some (ch :: k, v)
      | none => none

/-- Modelled from the spec: reading one variable from the headerless
`key=value` store; the last assignment to a key wins and a missing key
yields no value (`GetBootVar` then returns the empty string, spec
section 4.5). -/
def cfgGet (lines : List GoStr) (name : GoStr) : Option GoStr :=
  (((lines.filterMap parseKV).filter (fun kv => kv.1 == name)).getLast?).map
    (fun kv => kv.2)

/-- `parseKV` on a well-formed `name=value` line. -/
theorem parseKV_mk {k v : GoStr} (hk : '=' ∉ k) :
    parseKV (k ++ '=' :: v) = some (k, v) := by
  induction k with
  | nil => simp [parseKV]
  | cons x xs ih =>
    have hx : ¬ x = '=' := by
      intro he
      exact hk (by simp [he])
    have hxs : '=' ∉ xs := fun hm => hk (List.mem_cons_of_mem x hm)
    simp [parseKV, hx, ih hxs]

/-- Inversion for `parseKV`: a parsed binding comes from a `key=value`
line whose key is `=`-free. -/
theorem parseKV_inv {l k v : GoStr} (h : parseKV l = some (k, v)) :
    l = k ++ '=' :: v ∧ '=' ∉ k := by
  induction l generalizing k v with
  | nil => simp [parseKV] at h
  | cons x xs ih =>
    by_cases hx : x = '='
    · subst hx
      unfold parseKV at h
      rw [if_pos rfl] at h
      simp at h
      obtain ⟨rfl, rfl⟩ := h
      simp
    · unfold parseKV at h
      rw [if_neg hx] at h
      cases hps : parseKV xs with
      | none =>
        rw [hps] at h
        simp at h
      | some kv =>
        obtain ⟨k', v'⟩ := kv
        rw [hps] at h
        simp at h
        obtain ⟨rfl, rfl⟩ := h
        obtain ⟨hl, hkfree⟩ := ih hps
        refine ⟨by simp [hl], ?_⟩
        intro hm
        rcases List.mem_cons.mp hm with hm | hm
        · exact hx hm.symm
        · exact hkfree hm

/-- If every element of a non-empty list equals `a`, its last element is
`a`. -/
theorem getLast?_all_eq {α : Type} {l : List α} {a : α}
    (hne : l ≠ []) (hall : ∀ x ∈ l, x = a) : l.getLast? = some a := by
  induction l with
  | nil => exact absurd rfl hne
  | cons x xs ih =>
    cases xs with
    | nil =>
      have hx : x = a := hall x (by simp)
      simp [hx]
    | cons y ys =>
      rw [List.getLast?_cons_cons]
      exact ih (by simp) (fun z hz => hall z (List.mem_cons_of_mem x hz))

/-- After `modifyNameValueFile`, every parsed binding for the name of an
applied change carries that change's value, and such a binding exists: the
store reads back the written value. -/
theorem cfgGet_modifyLines_self {lines : List GoStr}
    {changes : List configFileChange}
    (h1 : ∀ c ∈ changes, '=' ∉ c.Name)
    (h2 : changes.Pairwise (fun a b => a.Name ≠ b.Name))
    {c : configFileChange} (hc : c ∈ changes) :
    cfgGet (modifyLines lines changes) c.Name = some c.Value := by
  rw [modifyLines_eq h1 h2]
  unfold cfgGet
  have hall : ∀ kv ∈ ((lines.map (replaceLine changes) ++
        (changes.filter
          (fun d => !(lines.any (fun l => chMatches d l)))).map
          (fun d => d.Name ++ '=' :: d.Value)).filterMap parseKV).filter
        (fun kv => kv.1 == c.Name),
      kv = (c.Name, c.Value) := by
    intro kv hkv
    rw [List.mem_filter] at hkv
    obtain ⟨hkvm, hkvk⟩ := hkv
    have hkey : kv.1 = c.Name := by simpa using hkvk
    obtain ⟨l', hl', hparse⟩ := List.mem_filterMap.mp hkvm
    rcases List.mem_append.mp hl' with hmap | happ
    · obtain ⟨l0, hl0, hrepl⟩ := List.mem_map.mp hmap
      rcases hmc : matchingChange changes l0 with _ | d
      · have hline : l' = l0 := by
          rw [← hrepl]
          unfold replaceLine
          rw [hmc]
        obtain ⟨hform, hfree⟩ := parseKV_inv hparse
        have hmatch : chMatches c l0 = true := by
          rw [chMatches_iff]
          exact ⟨kv.2, by rw [← hline, hform, hkey]⟩
        unfold matchingChange at hmc
        rw [List.find?_eq_none] at hmc
        exact absurd hmatch (hmc c hc)
      · have hline : l' = d.Name ++ '=' :: d.Value := by
          rw [← hrepl]
          unfold replaceLine
          rw [hmc]
        have hdmem : d ∈ changes := List.mem_of_find?_eq_some hmc
        have hpd : parseKV l' = some (d.Name, d.Value) := by
          rw [hline]
          exact parseKV_mk (h1 d hdmem)
        have hkv : kv = (d.Name, d.Value) := by
          rw [hparse] at hpd
          exact (Option.some.injEq ..).mp hpd.symm |>.symm
        have hdn : d.Name = c.Name := by rw [← hkey, hkv]
        have hdc : d = c := pairwise_names_inj h2 d hdmem c hc hdn
        rw [hkv, hdc]
    · obtain ⟨d, hdf, hline⟩ := List.mem_map.mp happ
      have hdmem : d ∈ changes := (List.mem_filter.mp hdf).1
      have hpd : parseKV l' = some (d.Name, d.Value) := by
        rw [← hline]
        exact parseKV_mk (h1 d hdmem)
      have hkv : kv = (d.Name, d.Value) := by
        rw [hparse] at hpd
        exact (Option.some.injEq ..).mp hpd.symm |>.symm
      have hdn : d.Name = c.Name := by rw [← hkey, hkv]
      have hdc : d = c := pairwise_names_inj h2 d hdmem c hc hdn
      rw [hkv, hdc]
  have hne : ((lines.map (replaceLine changes) ++
        (changes.filter
          (fun d => !(lines.any (fun l => chMatches d l)))).map
          (fun d => d.Name ++ '=' :: d.Value)).filterMap parseKV).filter
        (fun kv => kv.1 == c.Name) ≠ [] := by
    rcases hmatch : lines.any (fun l => chMatches c l) with _ | _
    · have hcf : c ∈ changes.filter
          (fun d => !(lines.any (fun l => chMatches d l))) :=
        List.mem_filter.mpr ⟨hc, by simp [hmatch]⟩
      have hlc : c.Name ++ '=' :: c.Value ∈
          (changes.filter
            (fun d => !(lines.any (fun l => chMatches d l)))).map
            (fun d => d.Name ++ '=' :: d.Value) :=
        List.mem_map.mpr ⟨c, hcf, rfl⟩
      have hent : (c.Name, c.Value) ∈
          ((lines.map (replaceLine changes) ++
            (changes.filter
              (fun d => !(lines.any (fun l => chMatches d l)))).map
              (fun d => d.Name ++ '=' :: d.Value)).filterMap parseKV) :=
        List.mem_filterMap.mpr
          ⟨c.Name ++ '=' :: c.Value, List.mem_append.mpr (Or.inr hlc),
            parseKV_mk (h1 c hc)⟩
      exact List.ne_nil_of_mem
        (List.mem_filter.mpr ⟨hent, by simp⟩)
    · rw [List.any_eq_true] at hmatch
      obtain ⟨l0, hl0, hp⟩ := hmatch
      rcases hmc : matchingChange changes l0 with _ | d
      · unfold matchingChange at hmc
        rw [List.find?_eq_none] at hmc
        exact absurd hp (hmc c hc)
      · have hpd0 := List.find?_some (show changes.find?
            (fun d => chMatches d l0) = some d from hmc)
        have hpd : chMatches d l0 = true := hpd0
        have hdmem : d ∈ changes := List.mem_of_find?_eq_some
          (show changes.find? (fun d => chMatches d l0) = some d from hmc)
        have hdn : d.Name = c.Name :=
          names_eq_of_matches (h1 d hdmem) (h1 c hc) hpd hp
        have hdc : d = c := pairwise_names_inj h2 d hdmem c hc hdn
        have hrl : replaceLine changes l0 = c.Name ++ '=' :: c.Value := by
          unfold replaceLine
          rw [hmc, hdc]
        have hlmem : c.Name ++ '=' :: c.Value ∈
            lines.map (replaceLine changes) :=
          List.mem_map.mpr ⟨l0, hl0, hrl⟩
        have hent : (c.Name, c.Value) ∈
            ((lines.map (replaceLine changes) ++
              (changes.filter
                (fun d => !(lines.any (fun l => chMatches d l)))).map
                (fun d => d.Name ++ '=' :: d.Value)).filterMap parseKV) :=
          List.mem_filterMap.mpr
            ⟨c.Name ++ '=' :: c.Value, List.mem_append.mpr (Or.inl hlmem),
              parseKV_mk (h1 c hc)⟩
        exact List.ne_nil_of_mem
          (List.mem_filter.mpr ⟨hent, by simp⟩)
  rw [getLast?_all_eq hne hall]
  rfl

/-- Rewriting matched lines leaves the parsed bindings of any key not named
by a change untouched (per-line filtered-parse equality). -/
theorem filter_parse_map_replaceLine {changes : List configFileChange}
    (h1 : ∀ c ∈ changes, '=' ∉ c.Name)
    {k : GoStr} (hk : ∀ c ∈ changes, c.Name ≠ k) :
    ∀ lines : List GoStr,
      ((lines.map (replaceLine changes)).filterMap parseKV).filter
        (fun kv => kv.1 == k) =
      (lines.filterMap parseKV).filter (fun kv => kv.1 == k) := by
  intro lines
  induction lines with
  | nil => rfl
  | cons l0 ls ih =>
    rw [List.map_cons, List.filterMap_cons, List.filterMap_cons]
    rcases hmc : matchingChange changes l0 with _ | d
    · have hrl : replaceLine changes l0 = l0 := by
        unfold replaceLine
        rw [hmc]
      rw [hrl]
      cases hp0 : parseKV l0 with
      | none => exact ih
      | some kv => rw [List.filter_cons, List.filter_cons, ih]
    · have hrl : replaceLine changes l0 = d.Name ++ '=' :: d.Value := by
        unfold replaceLine
        rw [hmc]
      have hdmem : d ∈ changes := List.mem_of_find?_eq_some hmc
      have hpd : parseKV (replaceLine changes l0) =
          some (d.Name, d.Value) := by
        rw [hrl]
        exact parseKV_mk (h1 d hdmem)
      rw [hpd, List.filter_cons]
      have hdk : ((d.Name, d.Value).1 == k) = false := by
        simp [hk d hdmem]
      rw [hdk]
      simp only [Bool.false_eq_true, if_false]
      cases hp0 : parseKV l0 with
      | none => exact ih
      | some kv =>
        have hpd0 := List.find?_some (show changes.find?
            (fun c => chMatches c l0) = some d from hmc)
        have hmatch : chMatches d l0 = true := hpd0
        obtain ⟨t, hform⟩ := chMatches_iff.mp hmatch
        obtain ⟨hform0, hfree0⟩ := parseKV_inv hp0
        have hnames : d.Name = kv.1 :=
          (cons_eq_names (h1 d hdmem) hfree0 (by rw [← hform, ← hform0])).1
        have hkvk : (kv.1 == k) = false := by
          simp [← hnames, hk d hdmem]
        rw [List.filter_cons, hkvk]
        simp only [Bool.false_eq_true, if_false]
        exact ih

/-- `modifyNameValueFile` does not disturb the stored value of a key that
no change names. -/
theorem cfgGet_modifyLines_other {lines : List GoStr}
    {changes : List configFileChange}
    (h1 : ∀ c ∈ changes, '=' ∉ c.Name)
    (h2 : changes.Pairwise (fun a b => a.Name ≠ b.Name))
    {k : GoStr} (hk : ∀ c ∈ changes, c.Name ≠ k) :
    cfgGet (modifyLines lines changes) k = cfgGet lines k := by
  rw [modifyLines_eq h1 h2]
  unfold cfgGet
  congr 1
  congr 1
  rw [List.filterMap_append, List.filter_append]
  have happ : (((changes.filter
        (fun d => !(lines.any (fun l => chMatches d l)))).map
        (fun d => d.Name ++ '=' :: d.Value)).filterMap parseKV).filter
        (fun kv => kv.1 == k) = [] := by
    rw [List.filter_eq_nil_iff]
    intro kv hkv
    obtain ⟨l', hl', hparse⟩ := List.mem_filterMap.mp hkv
    obtain ⟨d, hdf, hline⟩ := List.mem_map.mp hl'
    have hdmem : d ∈ changes := (List.mem_filter.mp hdf).1
    have hpd : parseKV l' = some (d.Name, d.Value) := by
      rw [← hline]
      exact parseKV_mk (h1 d hdmem)
    have hkv2 : kv = (d.Name, d.Value) := by
      rw [hparse] at hpd
      exact (Option.some.injEq ..).mp hpd.symm |>.symm
    simp [hkv2, hk d hdmem]
  rw [happ, List.append_nil]
  exact filter_parse_map_replaceLine h1 hk lines

/-- The change set `uboot.ToggleRootFS` applies: `snappy_ab = otherRootfs`
then `snappy_mode = try`, in one `modifyNameValueFile` call
(src/partition/bootloader.go, uboot variant). -/
def ubootToggleChanges (otherRootfs : Char) : List configFileChange :=
  [⟨bootloaderRootfsVar, [otherRootfs]⟩,
   ⟨bootloaderBootmodeVar, bootloaderBootmodeTry⟩]

/-- `uboot.ToggleRootFS` at the level of the `snappy-system.txt` lines. -/
def ubootToggleRootFS (otherRootfs : Char) (env : List GoStr) :
    List GoStr :=
  modifyLines env (ubootToggleChanges otherRootfs)

/-- Persisted U-Boot bootloader state: the env-file lines plus whether the
stamp file `snappy-stamp.txt` exists. -/
structure UbootState where
  env : List GoStr
  stamp : Bool
deriving DecidableEq

/-- The single change `uboot.MarkCurrentBootSuccessful` applies. -/
def ubootMarkChanges : List configFileChange :=
  [⟨bootloaderBootmodeVar, bootloaderBootmodeSuccess⟩]

/-- `uboot.MarkCurrentBootSuccessful`: apply `snappy_mode = default` via
`modifyNameValueFile`, then remove the stamp file (`os.RemoveAll`). -/
def ubootMarkCurrentBootSuccessful (s : UbootState) : UbootState :=
  ⟨modifyLines s.env ubootMarkChanges, false⟩

/-- `uboot.GetBootVar`: an unreadable env file returns the empty string
with nil error (source); a present file is parsed as headerless key=value
and a missing key yields the empty string with nil error (spec-modelled
`goconfigparser`). -/
def ubootGetBootVar (file : Option (List GoStr)) (name : GoStr) :
    Except Unit GoStr :=
  match file with
  | none => Except.ok []
  | some lines => Except.ok ((cfgGet lines name).getD [])

/-- `uboot.ToggleRootFS` with its I/O outcomes made explicit: a failed
`readLines` returns the error before writing; a failed `atomicFileUpdate`
(write to `<file>.NEW` then rename) leaves the target file unchanged. -/
def ubootToggleRootFSRun (readOk writeOk : Bool) (otherRootfs : Char)
    (env : List GoStr) : List GoStr × Bool :=
  if !readOk then (env, false)
  else if !writeOk then (env, false)
  else (ubootToggleRootFS otherRootfs env, true)

/-- The grubenv store: key/value bindings as maintained by `grub-editenv`. -/
abbrev GrubEnv := List (GoStr × GoStr)

/-- Modelled from the spec: the external `grub-editenv <file> set
name=value` tool (spec section 4.5.1) replaces the binding of `name`, or
appends it when absent. -/
def grubEnvSet (env : GrubEnv) (name value : GoStr) : GrubEnv :=
  if env.any (fun kv => kv.1 == name) then
    env.map (fun kv => if kv.1 == name then (name, value) else kv)
  else env ++ [(name, value)]

/-- Lookup in the grubenv store (`grub-editenv list` output, parsed as
headerless key=value). -/
def grubEnvGet (env : GrubEnv) (name : GoStr) : Option GoStr :=
  (env.find? (fun kv => kv.1 == name)).map (fun kv => kv.2)

/-- `grub.GetBootVar`: a failing `grub-editenv list` invocation propagates
the error; otherwise the output is parsed and a missing key yields the
empty string (spec-modelled parser). -/
def grubGetBootVar (toolOutput : Except Unit (List GoStr)) (name : GoStr) :
    Except Unit GoStr :=
  match toolOutput with
  | Except.error e => Except.error e
  | Except.ok lines => Except.ok ((cfgGet lines name).getD [])

/-- Outcome of one `grub.ToggleRootFS` run: final grubenv store, the
successful `grub-editenv set` writes in order, and whether the call
returned nil. -/
structure GrubRun where
  env : GrubEnv
  writes : List (GoStr × GoStr)
  ok : Bool
deriving DecidableEq

/-- `grub.ToggleRootFS` (src/unnamed/part_000): run `update-grub` in the
chroot, then `setBootVar(snappy_mode, try)`, then
`setBootVar(snappy_ab, otherRootfs)`, returning at the first failing
command; each oracle argument tells whether the corresponding external
command succeeds, and a failing `grub-editenv set` leaves the store
unchanged. -/
def grubToggleRootFS (chrootOk setModeOk setAbOk : Bool)
    (otherRootfs : Char) (env : GrubEnv) : GrubRun :=
  if !chrootOk then ⟨env, [], false⟩
  else if !setModeOk then ⟨env, [], false⟩
  else
    let env1 := grubEnvSet env bootloaderBootmodeVar bootloaderBootmodeTry
    if !setAbOk then
      ⟨env1, [(bootloaderBootmodeVar, bootloaderBootmodeTry)], false⟩
    else
      ⟨grubEnvSet env1 bootloaderRootfsVar [otherRootfs],
        [(bootloaderBootmodeVar, bootloaderBootmodeTry),
         (bootloaderRootfsVar, [otherRootfs])], true⟩

/-- Setting a key makes it read back with the new value. -/
theorem grubEnvGet_set_same (env : GrubEnv) (k v : GoStr) :
    grubEnvGet (grubEnvSet env k v) k = some v := by
  unfold grubEnvSet
  rcases hany : env.any (fun kv => kv.1 == k) with _ | _
  · simp only [Bool.false_eq_true, if_false]
    unfold grubEnvGet
    have hnone : env.find? (fun kv => kv.1 == k) = none := by
      rw [List.find?_eq_none]
      intro kv hkv
      rw [List.any_eq_false] at hany
      exact hany kv hkv
    rw [List.find?_append, hnone]
    simp [List.find?]
  · simp only [if_true]
    unfold grubEnvGet
    induction env with
    | nil => simp at hany
    | cons kv0 rest ih =>
      rcases hkv0 : (kv0.1 == k) with _ | _
      · rw [List.map_cons]
        rw [List.find?_cons_of_neg _ (by simp [hkv0])]
        rw [List.any_cons] at hany
        rw [hkv0] at hany
        simp only [Bool.false_or] at hany
        exact ih hany
      · rw [List.map_cons, hkv0]
        simp only [if_true]
        rw [List.find?_cons_of_pos _ (by simp)]
        rfl

/-- Rewriting the bindings of key `k` leaves lookups of a different key
unchanged. -/
theorem find?_map_setf (rest : GrubEnv) (k q v : GoStr) (h : q ≠ k) :
    (rest.map (fun kv => if kv.1 == k then (k, v) else kv)).find?
      (fun kv => kv.1 == q) = rest.find? (fun kv => kv.1 == q) := by
  induction rest with
  | nil => rfl
  | cons kv0 rest ih =>
    rw [List.map_cons]
    rcases hkv0 : (kv0.1 == k) with _ | _
    · simp only [hkv0, Bool.false_eq_true, if_false]
      rcases hq0 : (kv0.1 == q) with _ | _
      · rw [List.find?_cons_of_neg _ (by simp [hq0]),
          List.find?_cons_of_neg _ (by simp [hq0])]
        exact ih
      · rw [List.find?_cons_of_pos _ (by simp [hq0]),
          List.find?_cons_of_pos _ (by simp [hq0])]
    · simp only [hkv0, if_true]
      have hk0 : kv0.1 = k := by simpa using hkv0
      have hq0 : (kv0.1 == q) = false := by simp [hk0, Ne.symm h]
      rw [List.find?_cons_of_neg _ (by simp [Ne.symm h]),
        List.find?_cons_of_neg _ (by simp [hq0])]
      exact ih

/-- Setting a key does not disturb the value read for another key. -/
theorem grubEnvGet_set_other (env : GrubEnv) {k q : GoStr} (v : GoStr)
    (h : q ≠ k) :
    grubEnvGet (grubEnvSet env k v) q = grubEnvGet env q := by
  unfold grubEnvSet
  rcases hany : env.any (fun kv => kv.1 == k) with _ | _
  · simp only [Bool.false_eq_true, if_false]
    unfold grubEnvGet
    rw [List.find?_append]
    cases hfe : env.find? (fun kv => kv.1 == q) with
    | some kv => simp [hfe]
    | none =>
      rw [List.find?_cons_of_neg _ (by simp [Ne.symm h])]
      rfl
  · simp only [if_true]
    unfold grubEnvGet
    rw [find?_map_setf env k q v h]

/-- The U-Boot toggle changes have `=`-free names. -/
theorem ubootChanges_names_eqfree (o : Char) :
    ∀ c ∈ ubootToggleChanges o, '=' ∉ c.Name := by
  intro c hc
  simp [ubootToggleChanges] at hc
  rcases hc with rfl | rfl
  · show '=' ∉ bootloaderRootfsVar
    decide
  · show '=' ∉ bootloaderBootmodeVar
    decide

/-- The U-Boot toggle changes have pairwise-distinct names. -/
theorem ubootChanges_names_pairwise (o : Char) :
    (ubootToggleChanges o).Pairwise (fun a b => a.Name ≠ b.Name) := by
  unfold ubootToggleChanges
  constructor
  · intro d hd
    rw [List.mem_singleton] at hd
    subst hd
    show bootloaderRootfsVar ≠ bootloaderBootmodeVar
    decide
  · constructor
    · intro d hd
      exact absurd hd (List.not_mem_nil d)
    · exact List.Pairwise.nil

/-- The mark-successful change list has `=`-free names. -/
theorem ubootMark_names_eqfree : ∀ c ∈ ubootMarkChanges, '=' ∉ c.Name := by
  intro c hc
  simp [ubootMarkChanges] at hc
  subst hc
  show '=' ∉ bootloaderBootmodeVar
  decide

/-- The mark-successful change list has pairwise-distinct names. -/
theorem ubootMark_names_pairwise :
    ubootMarkChanges.Pairwise (fun a b => a.Name ≠ b.Name) := by
  unfold ubootMarkChanges
  constructor
  · intro d hd
    exact absurd hd (List.not_mem_nil d)
  · exact List.Pairwise.nil

/-- C1: after a successful `ToggleRootFS` — the whole bootloader work of a
successful `UpdateBootloader` on a dual-root system — reading back the
variables yields `bootmode == "try"` and `next_rootfs == otherTag`, on the
U-Boot variant (for every starting env file) and on the GRUB variant (for
every starting grubenv store); in particular the spec's literal U-Boot
scenario: from `snappy_mode=default`, `snappy_ab=a` with current root
`system-a` (so the other tag is the last character of `system-b`), the
post-state file is exactly `snappy_mode=try`, `snappy_ab=b`. -/
theorem updateBootloader_readback_try_other :
    (∀ (env : List GoStr) (o : Char),
      cfgGet (ubootToggleRootFS o env) bootloaderBootmodeVar =
          some bootloaderBootmodeTry ∧
        cfgGet (ubootToggleRootFS o env) bootloaderRootfsVar = some [o]) ∧
    (∀ (env : GrubEnv) (o : Char),
      grubEnvGet (grubToggleRootFS true true true o env).env
          bootloaderBootmodeVar = some bootloaderBootmodeTry ∧
        grubEnvGet (grubToggleRootFS true true true o env).env
          bootloaderRootfsVar = some [o]) ∧
    ubootToggleRootFS (rootfsTag (lit (r"system-b")))
        [lit (r"snappy_mode=default"), lit (r"snappy_ab=a")] =
      [lit (r"snappy_mode=try"), lit (r"snappy_ab=b")] := by
  refine ⟨?_, ?_, ?_⟩
  · intro env o
    constructor
    · exact @cfgGet_modifyLines_self env (ubootToggleChanges o)
        (ubootChanges_names_eqfree o) (ubootChanges_names_pairwise o)
        ⟨bootloaderBootmodeVar, bootloaderBootmodeTry⟩
        (by simp [ubootToggleChanges])
    · exact @cfgGet_modifyLines_self env (ubootToggleChanges o)
        (ubootChanges_names_eqfree o) (ubootChanges_names_pairwise o)
        ⟨bootloaderRootfsVar, [o]⟩
        (by simp [ubootToggleChanges])
  · intro env o
    constructor
    · show grubEnvGet (grubEnvSet
          (grubEnvSet env bootloaderBootmodeVar bootloaderBootmodeTry)
          bootloaderRootfsVar [o]) bootloaderBootmodeVar =
        some bootloaderBootmodeTry
      rw [grubEnvGet_set_other _ _ (by decide)]
      exact grubEnvGet_set_same env bootloaderBootmodeVar
        bootloaderBootmodeTry
    · show grubEnvGet (grubEnvSet
          (grubEnvSet env bootloaderBootmodeVar bootloaderBootmodeTry)
          bootloaderRootfsVar [o]) bootloaderRootfsVar = some [o]
      exact grubEnvGet_set_same _ bootloaderRootfsVar [o]
  · decide

/-- C6: `modifyNameValueFile` replaces each line that begins `name=` by
`name=value` for the matching change, keeps every other line unchanged and
in order, and appends `name=value` at the end for every change whose name
matched no line (change names are distinct and `=`-free, as presupposed by
"the matching change"). -/
theorem modifyNameValueFile_replaces_and_appends
    (lines : List GoStr) (changes : List configFileChange)
    (h1 : ∀ c ∈ changes, '=' ∉ c.Name)
    (h2 : changes.Pairwise (fun a b => a.Name ≠ b.Name)) :
    modifyLines lines changes =
      lines.map (replaceLine changes) ++
        (changes.filter
          (fun c => !(lines.any (fun l => chMatches c l)))).map
          (fun c => c.Name ++ '=' :: c.Value) :=
  modifyLines_eq h1 h2

/-- C6 witness: on the file `k=v1`, the change `{k: v2}` replaces the one
line and the change `{k2: v2}` is appended. -/
theorem modifyNameValueFile_replaces_and_appends_w :
    modifyLines [lit (r"k=v1")] [⟨lit (r"k"), lit (r"v2")⟩] =
        [lit (r"k=v2")] ∧
      modifyLines [lit (r"k=v1")] [⟨lit (r"k2"), lit (r"v2")⟩] =
        [lit (r"k=v1"), lit (r"k2=v2")] :=
  ⟨(modifyNameValueFile_replaces_and_appends [lit (r"k=v1")]
      [⟨lit (r"k"), lit (r"v2")⟩] (by decide) (by decide)).trans
      (by decide),
   (modifyNameValueFile_replaces_and_appends [lit (r"k=v1")]
      [⟨lit (r"k2"), lit (r"v2")⟩] (by decide) (by decide)).trans
      (by decide)⟩

/-- C7: `ToggleRootFS()` then `MarkCurrentBootSuccessful()` on the U-Boot
variant leaves `bootmode == "default"` and `next_rootfs == otherTag`
(marking success does not revert the staged rootfs choice), and the stamp
file is absent. -/
theorem toggle_then_mark_readback :
    ∀ (env : List GoStr) (stamp : Bool) (o : Char),
      cfgGet (ubootMarkCurrentBootSuccessful
          ⟨ubootToggleRootFS o env, stamp⟩).env bootloaderBootmodeVar =
          some bootloaderBootmodeSuccess ∧
        cfgGet (ubootMarkCurrentBootSuccessful
          ⟨ubootToggleRootFS o env, stamp⟩).env bootloaderRootfsVar =
          some [o] ∧
        (ubootMarkCurrentBootSuccessful
          ⟨ubootToggleRootFS o env, stamp⟩).stamp = false := by
  intro env stamp o
  refine ⟨?_, ?_, rfl⟩
  · exact @cfgGet_modifyLines_self (ubootToggleRootFS o env)
      ubootMarkChanges ubootMark_names_eqfree ubootMark_names_pairwise
      ⟨bootloaderBootmodeVar, bootloaderBootmodeSuccess⟩
      (by simp [ubootMarkChanges])
  · show cfgGet (modifyLines (ubootToggleRootFS o env) ubootMarkChanges)
        bootloaderRootfsVar = some [o]
    rw [cfgGet_modifyLines_other ubootMark_names_eqfree
      ubootMark_names_pairwise ?hk]
    case hk =>
      intro c hc
      simp [ubootMarkChanges] at hc
      subst hc
      show bootloaderBootmodeVar ≠ bootloaderRootfsVar
      decide
    exact @cfgGet_modifyLines_self env (ubootToggleChanges o)
      (ubootChanges_names_eqfree o) (ubootChanges_names_pairwise o)
      ⟨bootloaderRootfsVar, [o]⟩
      (by simp [ubootToggleChanges])

/-- C9: on both variants, `GetBootVar` with a key that the variable store
does not bind returns the empty string and no error. -/
theorem getBootVar_missing_key (lines : List GoStr) (k : GoStr)
    (h : cfgGet lines k = none) :
    ubootGetBootVar (some lines) k = Except.ok [] ∧
      grubGetBootVar (Except.ok lines) k = Except.ok [] := by
  constructor
  · show Except.ok ((cfgGet lines k).getD []) = Except.ok []
    rw [h]
    rfl
  · show Except.ok ((cfgGet lines k).getD []) = Except.ok []
    rw [h]
    rfl

/-- C9 witness: the key `missing` is unbound in a typical store and both
variants return the empty string without error. -/
theorem getBootVar_missing_key_w :
    cfgGet [lit (r"snappy_mode=try"), lit (r"snappy_ab=b")]
        (lit (r"missing")) = none ∧
      (ubootGetBootVar
          (some [lit (r"snappy_mode=try"), lit (r"snappy_ab=b")])
          (lit (r"missing")) = Except.ok [] ∧
        grubGetBootVar
          (Except.ok [lit (r"snappy_mode=try"), lit (r"snappy_ab=b")])
          (lit (r"missing")) = Except.ok []) :=
  ⟨by decide, getBootVar_missing_key _ _ (by decide)⟩

/-- C5 counterexample: a GRUB `ToggleRootFS` whose second `grub-editenv
set` fails has already written `bootmode = try`, with no `next_rootfs`
write anywhere in the run — the failed cycle persists `bootmode == "try"`
without a preceding successful `next_rootfs` write. -/
theorem grub_toggle_try_without_rootfs_write :
    grubEnvGet (grubToggleRootFS true true false 'b'
        [(bootloaderBootmodeVar, bootloaderBootmodeSuccess),
         (bootloaderRootfsVar, lit (r"a"))]).env bootloaderBootmodeVar =
      some bootloaderBootmodeTry ∧
    (grubToggleRootFS true true false 'b'
        [(bootloaderBootmodeVar, bootloaderBootmodeSuccess),
         (bootloaderRootfsVar, lit (r"a"))]).ok = false ∧
    (∀ w ∈ (grubToggleRootFS true true false 'b'
        [(bootloaderBootmodeVar, bootloaderBootmodeSuccess),
         (bootloaderRootfsVar, lit (r"a"))]).writes,
      w.1 ≠ bootloaderRootfsVar) ∧
    grubEnvGet (grubToggleRootFS true true false 'b'
        [(bootloaderBootmodeVar, bootloaderBootmodeSuccess),
         (bootloaderRootfsVar, lit (r"a"))]).env bootloaderRootfsVar =
      some (lit (r"a")) := by decide

/-- C5 amended: a failed toggle never moves `next_rootfs`: on GRUB the
store is either untouched or has exactly `bootmode = try` written (the
`bootmode` write comes first by design, spec sections 5 and 9); on U-Boot a
failed `ToggleRootFS` leaves the env file entirely unchanged because both
variables travel in one atomic file update. -/
theorem failed_toggle_preserves_rootfs_var :
    (∀ (c m a : Bool) (o : Char) (env : GrubEnv),
      (grubToggleRootFS c m a o env).ok = false →
        grubEnvGet (grubToggleRootFS c m a o env).env
            bootloaderRootfsVar = grubEnvGet env bootloaderRootfsVar ∧
          ((grubToggleRootFS c m a o env).env = env ∨
            (grubToggleRootFS c m a o env).env =
              grubEnvSet env bootloaderBootmodeVar bootloaderBootmodeTry)) ∧
    (∀ (r w : Bool) (o : Char) (env : List GoStr),
      (ubootToggleRootFSRun r w o env).2 = false →
        (ubootToggleRootFSRun r w o env).1 = env) := by
  constructor
  · intro c m a o env hfail
    cases c with
    | false => exact ⟨rfl, Or.inl rfl⟩
    | true =>
      cases m with
      | false => exact ⟨rfl, Or.inl rfl⟩
      | true =>
        cases a with
        | false =>
          refine ⟨?_, Or.inr rfl⟩
          show grubEnvGet (grubEnvSet env bootloaderBootmodeVar
              bootloaderBootmodeTry) bootloaderRootfsVar =
            grubEnvGet env bootloaderRootfsVar
          exact grubEnvGet_set_other env bootloaderBootmodeTry (by decide)
        | true =>
          exact Bool.noConfusion (show (true : Bool) = false from hfail)
  · intro r w o env hfail
    cases r with
    | false => rfl
    | true =>
      cases w with
      | false => rfl
      | true =>
        exact Bool.noConfusion (show (true : Bool) = false from hfail)

/-- C5 amended witness: the failing-second-write GRUB run keeps the old
`snappy_ab`, and a U-Boot toggle whose file read fails leaves the file
unchanged. -/
theorem failed_toggle_preserves_rootfs_var_w :
    (grubEnvGet (grubToggleRootFS true true false 'b'
          [(bootloaderRootfsVar, lit (r"a"))]).env bootloaderRootfsVar =
        grubEnvGet [(bootloaderRootfsVar, lit (r"a"))]
          bootloaderRootfsVar ∧
      ((grubToggleRootFS true true false 'b'
          [(bootloaderRootfsVar, lit (r"a"))]).env =
          [(bootloaderRootfsVar, lit (r"a"))] ∨
        (grubToggleRootFS true true false 'b'
          [(bootloaderRootfsVar, lit (r"a"))]).env =
          grubEnvSet [(bootloaderRootfsVar, lit (r"a"))]
            bootloaderBootmodeVar bootloaderBootmodeTry)) ∧
    (ubootToggleRootFSRun false true 'b' [lit (r"snappy_ab=a")]).1 =
      [lit (r"snappy_ab=a")] :=
  ⟨failed_toggle_preserves_rootfs_var.1 true true false 'b'
      [(bootloaderRootfsVar, lit (r"a"))] (by decide),
   failed_toggle_preserves_rootfs_var.2 false true 'b'
      [lit (r"snappy_ab=a")] (by decide)⟩

/-- `stringSliceRemove` (src/partition/bootloader.go): drop the first
occurrence of `needle` (the position found by `stringInSlice`). -/
def stringSliceRemove (slice : List GoStr) (needle : GoStr) : List GoStr :=
  match slice with
  | [] => []
  | x :: xs => if x == needle then xs else x :: stringSliceRemove xs needle

/-- The two module-level mount registries of src/partition/bootloader.go:
`mounts` and `bindMounts`. -/
structure MountState where
  mounts : List GoStr
  bindMounts : List GoStr
deriving DecidableEq

/-- `mount(source, target, options)`: run `/bin/mount` (outcome `ok`); on
success append `target` to the plain-mount registry. -/
def mount (ok : Bool) (source target options : GoStr) (st : MountState) :
    MountState × Bool :=
  if ok then ({ st with mounts := st.mounts ++ [target] }, true)
  else (st, false)

/-- `unmount(target)`: run `/bin/umount` (outcome `ok`); on success remove
`target` from the plain-mount registry only — `bindMounts` is never
shrunk anywhere in the module. -/
def unmount (ok : Bool) (target : GoStr) (st : MountState) :
    MountState × Bool :=
  if ok then ({ st with mounts := stringSliceRemove st.mounts target }, true)
  else (st, false)

/-- `bindmount(source, target)`: `mount` with the `bind` option; on success
additionally append `target` to the bind-mount registry. -/
def bindmount (ok : Bool) (source target : GoStr) (st : MountState) :
    MountState × Bool :=
  let r := mount ok source target (lit (r"bind")) st
  if r.2 then ({ r.1 with bindMounts := r.1.bindMounts ++ [target] }, true)
  else r

/-- The loop of `undoMounts` (src/partition/bootloader.go): `i` ranges over
the indices of `ms` and each iteration unmounts `ms[len(ms)-i]`; an
out-of-range index is a Go runtime panic (`none`); a failing unmount
returns immediately with the failing target. -/
def undoMountsAux (ok : GoStr → Bool) (ms : List GoStr) :
    List Nat → MountState → Option (MountState × Option GoStr)
  | [], st => some (st, none)
  | i :: rest, st =>
    match ms.get? (ms.length - i) with
    | none => none
    | some t =>
      let r := unmount (ok t) t st
      if r.2 then undoMountsAux ok ms rest r.1 else some (r.1, some t)

/-- `undoMounts(mounts)` (src/partition/bootloader.go). -/
def undoMounts (ok : GoStr → Bool) (ms : List GoStr) (st : MountState) :
    Option (MountState × Option GoStr) :=
  undoMountsAux ok ms (List.range ms.length) st

/-- `signal_handler` (src/partition/bootloader.go): on SIGINT/SIGTERM it
calls `undoMounts(mounts)` on the global plain-mount registry (logging any
error) and the supervising goroutine then calls `os.Exit(1)`; a panic
inside the handler (`none`) kills the process before `os.Exit(1)`. -/
def signal_handler (ok : GoStr → Bool) (st : MountState) :
    Option (MountState × Nat) :=
  match undoMounts ok st.mounts st with
  | none => none
  | some (st1, _) => some (st1, 1)

/-- C3: `undoMounts` reads `mounts[len(mounts)-i]` with `i` starting at 0,
an out-of-range access: on the non-empty registry holding
`/writable/cache/system/dev` the first iteration panics (despite every
`umount` succeeding), instead of unmounting in reverse order. -/
theorem undoMounts_panics_on_nonempty :
    undoMounts (fun _ => true) [lit (r"/writable/cache/system/dev")]
      ⟨[lit (r"/writable/cache/system/dev")], []⟩ = none := by decide

/-- C4: after bind-mounting `/dev` and `/proc` into the scratch tree, the
SIGTERM handler's `undoMounts(mounts)` call panics on the non-empty
registry: no registered path is unmounted and the `os.Exit(1)` path is
never reached. -/
theorem signal_handler_panics_after_bindmounts :
    signal_handler (fun _ => true)
      ((bindmount true (lit (r"/proc"))
          (lit (r"/writable/cache/system/proc"))
        ((bindmount true (lit (r"/dev"))
            (lit (r"/writable/cache/system/dev")) ⟨[], []⟩).1)).1) =
      none := by decide

/-- Mount-manager operations as a reachability alphabet. -/
inductive MountOp where
  | mnt (ok : Bool) (source target options : GoStr)
  | bnd (ok : Bool) (source target : GoStr)
  | umnt (ok : Bool) (target : GoStr)
deriving DecidableEq

/-- Whether the operation is an `unmount`. -/
def MountOp.isUnmount : MountOp → Bool
  | .umnt _ _ => true
  | _ => false

/-- Apply one mount-manager operation to the registries. -/
def applyMountOp (st : MountState) : MountOp → MountState
  | .mnt ok s t o => (mount ok s t o st).1
  | .bnd ok s t => (bindmount ok s t st).1
  | .umnt ok t => (unmount ok t st).1

/-- Run a sequence of mount-manager operations from a state. -/
def runMountOps (ops : List MountOp) (st : MountState) : MountState :=
  ops.foldl applyMountOp st

/-- C10 counterexample: a successful `bindmount` followed by a successful
`unmount` of the same target is reachable and leaves the target in
`bindMounts` but not in `mounts` — `unmount` removes only from the
plain-mount registry, so the subset invariant fails on reachable states. -/
theorem bindMounts_not_subset_after_unmount :
    ¬ (∀ x ∈ (runMountOps
        [MountOp.bnd true (lit (r"/dev")) (lit (r"/tmp/t")),
         MountOp.umnt true (lit (r"/tmp/t"))] ⟨[], []⟩).bindMounts,
      x ∈ (runMountOps
        [MountOp.bnd true (lit (r"/dev")) (lit (r"/tmp/t")),
         MountOp.umnt true (lit (r"/tmp/t"))] ⟨[], []⟩).mounts) := by
  decide

/-- One non-unmount step preserves the bind-registry-inside-plain-registry
invariant. -/
theorem bind_subset_step (st : MountState) (op : MountOp)
    (hop : op.isUnmount = false)
    (hsub : ∀ x ∈ st.bindMounts, x ∈ st.mounts) :
    ∀ x ∈ (applyMountOp st op).bindMounts,
      x ∈ (applyMountOp st op).mounts := by
  cases op with
  | mnt ok s t o =>
    cases ok with
    | false => exact hsub
    | true =>
      have hm : applyMountOp st (MountOp.mnt true s t o) =
          ⟨st.mounts ++ [t], st.bindMounts⟩ := rfl
      rw [hm]
      intro x hx
      exact List.mem_append.mpr (Or.inl (hsub x hx))
  | bnd ok s t =>
    cases ok with
    | false => exact hsub
    | true =>
      have hb : applyMountOp st (MountOp.bnd true s t) =
          ⟨st.mounts ++ [t], st.bindMounts ++ [t]⟩ := rfl
      rw [hb]
      intro x hx
      rcases List.mem_append.mp hx with hx1 | hx2
      · exact List.mem_append.mpr (Or.inl (hsub x hx1))
      · exact List.mem_append.mpr (Or.inr hx2)
  | umnt ok t =>
    exact Bool.noConfusion (show (true : Bool) = false from hop)

/-- C10 amended: every successful `bindmount` registers the target in both
registries (so each bind-mounted path is recorded twice), and along any
operation sequence free of `unmount` the bind-mount registry stays a
subset of the plain-mount registry; `unmount` breaks the inclusion because
it removes the target from the plain registry only. -/
theorem bindmount_registers_in_both :
    (∀ (st : MountState) (s t : GoStr),
      (bindmount true s t st).1.mounts = st.mounts ++ [t] ∧
        (bindmount true s t st).1.bindMounts = st.bindMounts ++ [t]) ∧
    (∀ ops : List MountOp, (∀ op ∈ ops, op.isUnmount = false) →
      ∀ x ∈ (runMountOps ops ⟨[], []⟩).bindMounts,
        x ∈ (runMountOps ops ⟨[], []⟩).mounts) := by
  constructor
  · intro st s t
    exact ⟨rfl, rfl⟩
  · have hgen : ∀ (ops : List MountOp) (st : MountState),
        (∀ op ∈ ops, op.isUnmount = false) →
        (∀ x ∈ st.bindMounts, x ∈ st.mounts) →
        ∀ x ∈ (runMountOps ops st).bindMounts,
          x ∈ (runMountOps ops st).mounts := by
      intro ops
      induction ops with
      | nil =>
        intro st hall hsub
        exact hsub
      | cons op rest ih =>
        intro st hall hsub
        show ∀ x ∈ (runMountOps rest (applyMountOp st op)).bindMounts,
          x ∈ (runMountOps rest (applyMountOp st op)).mounts
        exact ih (applyMountOp st op)
          (fun p hp => hall p (List.mem_cons_of_mem op hp))
          (bind_subset_step st op (hall op (List.mem_cons_self op rest))
            hsub)
    intro ops hall
    exact hgen ops ⟨[], []⟩ hall
      (fun x hx => absurd hx (List.not_mem_nil x))

/-- C10 amended witness: after one plain mount and one bind mount (no
unmount), the bind-mounted path is present in the plain registry too. -/
theorem bindmount_registers_in_both_w :
    lit (r"/writable/cache/system/dev") ∈
      (runMountOps
        [MountOp.mnt true (lit (r"/dev/sdb4"))
          (lit (r"/writable/cache/system")) (lit (r"ro")),
         MountOp.bnd true (lit (r"/dev"))
          (lit (r"/writable/cache/system/dev"))] ⟨[], []⟩).mounts :=
  bindmount_registers_in_both.2
    [MountOp.mnt true (lit (r"/dev/sdb4"))
      (lit (r"/writable/cache/system")) (lit (r"ro")),
     MountOp.bnd true (lit (r"/dev"))
      (lit (r"/writable/cache/system/dev"))] (by decide)
    (lit (r"/writable/cache/system/dev")) (by decide)

/-- The external effects of `toggleBootloaderRootfs`
(src/partition/bootloader.go), in program order: `remountOther(RW)`,
`bindmountRequiredFilesystems`, `handleBootloader` (selection +
`ToggleRootFS`), `unmountRequiredFilesystems`, `remountOther(RO)`, the
second `GetBootloader`, and `HandleAssets`. -/
inductive UpgradeStep where
  | remountRW
  | bindmountFS
  | handleBootloader
  | unmountFS
  | remountRO
  | getBootloader
  | handleAssets
deriving DecidableEq

/-- The steps of `toggleBootloaderRootfs` in program order. -/
def upgradeOrder : List UpgradeStep :=
  [.remountRW, .bindmountFS, .handleBootloader, .unmountFS, .remountRO,
   .getBootloader, .handleAssets]

/-- `toggleBootloaderRootfs` (src/partition/bootloader.go) with each
step's outcome given by `res` (`some e` means the step returns error `e`):
the body is a chain of `if err != nil { return err }`, so it attempts the
steps in order and returns at the first error; the result records the
steps attempted and the returned error. -/
def toggleBootloaderRootfs (dual : Bool)
    (res : UpgradeStep → Option GoStr) : List UpgradeStep × Option GoStr :=
  if !dual then ([], some (lit (r"System is not dual root")))
  else
    match res .remountRW with
    | some e => ([.remountRW], some e)
    | none =>
      match res .bindmountFS with
      | some e => ([.remountRW, .bindmountFS], some e)
      | none =>
        match res .handleBootloader with
        | some e => ([.remountRW, .bindmountFS, .handleBootloader], some e)
        | none =>
          match res .unmountFS with
          | some e =>
            ([.remountRW, .bindmountFS, .handleBootloader, .unmountFS],
              some e)
          | none =>
            match res .remountRO with
            | some e =>
              ([.remountRW, .bindmountFS, .handleBootloader, .unmountFS,
                .remountRO], some e)
            | none =>
              match res .getBootloader with
              | some e =>
                ([.remountRW, .bindmountFS, .handleBootloader, .unmountFS,
                  .remountRO, .getBootloader], some e)
              | none => (upgradeOrder, res .handleAssets)

/-- The first error among the steps, in program order. -/
def firstUpgradeError (res : UpgradeStep → Option GoStr) : Option GoStr :=
  (upgradeOrder.find? (fun s => (res s).isSome)).bind res

/-- C2 counterexample: when `handleBootloader` (i.e. `ToggleRootFS`) fails
on a dual-root system, `toggleBootloaderRootfs` returns that error
immediately — the teardown steps (unbind the chroot auxiliaries, remount
the other rootfs read-only) are never attempted. -/
theorem toggleRootfs_error_skips_teardown :
    (toggleBootloaderRootfs true
        (fun s => if s = UpgradeStep.handleBootloader
          then some (lit (r"boom")) else none)).2 = some (lit (r"boom")) ∧
      UpgradeStep.unmountFS ∉ (toggleBootloaderRootfs true
        (fun s => if s = UpgradeStep.handleBootloader
          then some (lit (r"boom")) else none)).1 ∧
      UpgradeStep.remountRO ∉ (toggleBootloaderRootfs true
        (fun s => if s = UpgradeStep.handleBootloader
          then some (lit (r"boom")) else none)).1 := by decide

/-- C2 amended: on a dual-root system the value returned is the first
error encountered in the cycle, but teardown is conditional, not
unconditional: the unbind step runs exactly when remount-rw, the bind
mounts and the bootloader toggle all succeeded. -/
theorem toggleRootfs_first_error_conditional_teardown :
    ∀ res : UpgradeStep → Option GoStr,
      (toggleBootloaderRootfs true res).2 = firstUpgradeError res ∧
        (UpgradeStep.unmountFS ∈ (toggleBootloaderRootfs true res).1 ↔
          (res UpgradeStep.remountRW = none ∧
            res UpgradeStep.bindmountFS = none ∧
            res UpgradeStep.handleBootloader = none)) := by
  intro res
  cases h1 : res UpgradeStep.remountRW with
  | some e =>
    simp [toggleBootloaderRootfs, firstUpgradeError, upgradeOrder,
      List.find?, h1]
  | none =>
    cases h2 : res UpgradeStep.bindmountFS with
    | some e =>
      simp [toggleBootloaderRootfs, firstUpgradeError, upgradeOrder,
        List.find?, h1, h2]
    | none =>
      cases h3 : res UpgradeStep.handleBootloader with
      | some e =>
        simp [toggleBootloaderRootfs, firstUpgradeError, upgradeOrder,
          List.find?, h1, h2, h3]
      | none =>
        cases h4 : res UpgradeStep.unmountFS with
        | some e =>
          simp [toggleBootloaderRootfs, firstUpgradeError, upgradeOrder,
            List.find?, h1, h2, h3, h4]
        | none =>
          cases h5 : res UpgradeStep.remountRO with
          | some e =>
            simp [toggleBootloaderRootfs, firstUpgradeError, upgradeOrder,
              List.find?, h1, h2, h3, h4, h5]
          | none =>
            cases h6 : res UpgradeStep.getBootloader with
            | some e =>
              simp [toggleBootloaderRootfs, firstUpgradeError,
                upgradeOrder, List.find?, h1, h2, h3, h4, h5, h6]
            | none =>
              cases h7 : res UpgradeStep.handleAssets with
              | some e =>
                simp [toggleBootloaderRootfs, firstUpgradeError,
                  upgradeOrder, List.find?, h1, h2, h3, h4, h5, h6, h7]
              | none =>
                simp [toggleBootloaderRootfs, firstUpgradeError,
                  upgradeOrder, List.find?, h1, h2, h3, h4, h5, h6, h7]

/-- `Partition.NextBootIsOther` (src/partition/bootloader.go) over the
outcomes of its reads: bootloader selection (`selOk`),
`GetBootVar(snappy_mode)` (`modeRes`), `GetNextBootRootFSName()`
(`nextRes`); `other` is `GetOtherRootFSName()`. -/
def NextBootIsOther (selOk : Bool) (modeRes nextRes : Except Unit GoStr)
    (other : GoStr) : Bool :=
  if !selOk then false
  else
    match modeRes with
    | Except.error _ => false
    | Except.ok v =>
      if v != bootloaderBootmodeTry then false
      else
        match nextRes with
        | Except.error _ => false
        | Except.ok label => label == other

/-- C8: `NextBootIsOther()` returns true exactly when the bootloader was
selected, `GetBootVar(bootmode)` returned `"try"`, and
`GetNextBootRootFSName()` returned the other tag; any error in selection
or either read yields false. -/
theorem nextBootIsOther_iff :
    ∀ (selOk : Bool) (modeRes nextRes : Except Unit GoStr) (other : GoStr),
      NextBootIsOther selOk modeRes nextRes other = true ↔
        (selOk = true ∧ modeRes = Except.ok bootloaderBootmodeTry ∧
          nextRes = Except.ok other) := by
  intro selOk modeRes nextRes other
  cases selOk with
  | false => simp [NextBootIsOther]
  | true =>
    cases modeRes with
    | error e => simp [NextBootIsOther]
    | ok v =>
      cases nextRes with
      | error e =>
        by_cases hv : v = bootloaderBootmodeTry
        · subst hv
          simp [NextBootIsOther]
        · simp [NextBootIsOther, hv]
      | ok label =>
        by_cases hv : v = bootloaderBootmodeTry
        · subst hv
          simp [NextBootIsOther]
        · simp [NextBootIsOther, hv]
